import Mathlib

/-!
Verification development for the batch image converter's algorithmic core:
the fixed-stride pixel sampler (`traceToSvgPath`), the markup minifier
(`minifySvg`) and the conversion strategy selection (`convertImage`).

The bitmap is embedded as its flat RGBA channel list (`data`), exactly as
the canvas `ImageData.data` array is laid out: channel `k` of the pixel at
`(x, y)` lives at index `(y * width + x) * 4 + k`.  Out-of-range reads
default to `0`, matching the sampler's behaviour (a missing alpha never
exceeds the opacity threshold, in JS `undefined > 128` is `false`).
-/

set_option maxRecDepth 16384

/-- Boolean test that the first list is an initial segment of the second. -/
def leadsWith : List Char → List Char → Bool
  | [], _ => true
  | _ :: _, [] => false
  | a :: as, b :: bs => a = b && leadsWith as bs

/-- Counts the occurrences of a pattern inside a character list, examining
every start position from left to right. -/
def countPat (pat : List Char) : List Char → Nat
  | [] => 0
  | c :: rest => (if leadsWith pat (c :: rest) then 1 else 0) + countPat pat rest

/-- Number of rectangle primitives in a markup string: occurrences of the
opening tag text of a rectangle element. -/
def rectCount (s : String) : Nat := countPat "<rect".data s.data

/-- Number of embedded-image elements in a markup string: occurrences of the
opening tag text of an image element. -/
def imageCount (s : String) : Nat := countPat "<image".data s.data

/-- Channel `k` (0 red, 1 green, 2 blue, 3 alpha) of the pixel at `(x, y)`
in a flat RGBA buffer of the given width; reads `data[(y*width+x)*4+k]`. -/
def chan (data : List Nat) (width x y k : Nat) : Nat :=
  data.getD ((y * width + x) * 4 + k) 0

/-- Alpha channel of the sampled coordinate `p`. -/
def alphaAt (data : List Nat) (width : Nat) (p : Nat × Nat) : Nat :=
  chan data width p.1 p.2 3

/-- The coordinates visited by a loop `for (v = 0; v < limit; v += step)`:
`0, step, 2*step, ...` while below `limit`. -/
def strideList (limit step : Nat) : List Nat :=
  (List.range ((limit + step - 1) / step)).map (fun k => k * step)

/-- The CSS color text `rgb(r,g,b)` built by the sampler. -/
def colorStr (r g b : Nat) : String :=
  "rgb(" ++ Nat.repr r ++ "," ++ Nat.repr g ++ "," ++ Nat.repr b ++ ")"

/-- One rectangle primitive of the sampler: a `step`-sided square at `(x, y)`
filled with the sampled pixel's RGB triple. -/
def rectStr (x y step r g b : Nat) : String :=
  "<rect x=\"" ++ Nat.repr x ++ "\" y=\"" ++ Nat.repr y ++ "\" width=\"" ++ Nat.repr step
    ++ "\" height=\"" ++ Nat.repr step ++ "\" fill=\"" ++ colorStr r g b ++ "\" />"

/-- Embedding of `traceToSvgPath` from the converter service (the variant
with threshold 150000): walks the bitmap with stride 2 in row-major order
and appends one rectangle primitive for every sample whose alpha channel
exceeds 128. -/
def traceToSvgPath (data : List Nat) (width height : Nat) : String :=
  let step := 2
  (strideList height step).foldl
    (fun paths y =>
      (strideList width step).foldl
        (fun paths x =>
          let i := (y * width + x) * 4
          let r := data.getD i 0
          let g := data.getD (i + 1) 0
          let b := data.getD (i + 2) 0
          let a := data.getD (i + 3) 0
          if a > 128 then paths ++ rectStr x y step r g b else paths)
        paths)
    ""

/-- The raster-scan list of coordinates visited by the sampler: row-major,
top-to-bottom, left-to-right, both axes stepping by the stride 2. -/
def sampledCoords (width height : Nat) : List (Nat × Nat) :=
  (strideList height 2).flatMap (fun y => (strideList width 2).map (fun x => (x, y)))

/-- Whether the sampler emits a primitive for coordinate `p`: its alpha
channel strictly exceeds the opacity threshold 128. -/
def passes (data : List Nat) (width : Nat) (p : Nat × Nat) : Bool :=
  128 < alphaAt data width p

/-- The primitive the sampler emits for coordinate `p`. -/
def rectOf (data : List Nat) (width : Nat) (p : Nat × Nat) : String :=
  rectStr p.1 p.2 2 (chan data width p.1 p.2 0) (chan data width p.1 p.2 1)
    (chan data width p.1 p.2 2)

/-- Concatenation of a list of strings, in order. -/
def strConcat : List String → String
  | [] => ""
  | s :: rest => s ++ strConcat rest

example : traceToSvgPath [255, 0, 0, 255] 1 1
    = "<rect x=\"0\" y=\"0\" width=\"2\" height=\"2\" fill=\"rgb(255,0,0)\" />" := by decide

example : traceToSvgPath [255, 0, 0, 128] 1 1 = "" := by decide

example : sampledCoords 4 4 = [(0, 0), (2, 0), (0, 2), (2, 2)] := by decide

theorem string_append_empty (s : String) : s ++ "" = s := by
  cases s with
  | mk data => show String.mk (data ++ []) = String.mk data
               rw [List.append_nil]

theorem string_append_assoc (a b c : String) : a ++ b ++ c = a ++ (b ++ c) := by
  cases a with
  | mk u => cases b with
    | mk v => cases c with
      | mk w => show String.mk (u ++ v ++ w) = String.mk (u ++ (v ++ w))
                rw [List.append_assoc]

theorem foldl_emit {α : Type} (f : α → String) (p : α → Prop) [DecidablePred p]
    (l : List α) (acc : String) :
    l.foldl (fun a x => if p x then a ++ f x else a) acc
      = acc ++ strConcat ((l.filter (fun x => decide (p x))).map f) := by
  induction l generalizing acc with
  | nil => simp [strConcat, string_append_empty]
  | cons x xs ih =>
      by_cases h : p x
      · simp only [List.foldl_cons, if_pos h, List.filter_cons,
          decide_eq_true_eq, h, if_pos, List.map_cons, strConcat]
        rw [ih, string_append_assoc]
      · simp only [List.foldl_cons, if_neg h, List.filter_cons]
        rw [ih]
        simp [h]

theorem foldl_rows (g : Nat → String) (l : List Nat) (acc : String) :
    l.foldl (fun a y => a ++ g y) acc = acc ++ strConcat (l.map g) := by
  induction l generalizing acc with
  | nil => simp [strConcat, string_append_empty]
  | cons x xs ih =>
      simp only [List.foldl_cons, List.map_cons, strConcat]
      rw [ih, string_append_assoc]

theorem strConcat_append (a b : List String) :
    strConcat (a ++ b) = strConcat a ++ strConcat b := by
  induction a with
  | nil => simp [strConcat]

  | cons x xs ih => simp [strConcat, ih, string_append_assoc]

theorem string_empty_append (s : String) : "" ++ s = s := by
  cases s with
  | mk data => show String.mk ([] ++ data) = String.mk data
               rw [List.nil_append]

/-- The primitives of one sampled row, in left-to-right order. -/
def rowRects (data : List Nat) (w y : Nat) : List String :=
  ((strideList w 2).filter (fun x => passes data w (x, y))).map
    (fun x => rectOf data w (x, y))

theorem row_eq (data : List Nat) (w y : Nat) :
    (((strideList w 2).map (fun x => (x, y))).filter (passes data w)).map (rectOf data w)
      = rowRects data w y := by
  unfold rowRects
  rw [List.filter_map, List.map_map]
  rfl

/-- The sampler's output is exactly the concatenation, in raster-scan order,
of one rectangle primitive per visited coordinate whose alpha exceeds 128. -/
theorem traceToSvgPath_eq (data : List Nat) (w h : Nat) :
    traceToSvgPath data w h
      = strConcat (((sampledCoords w h).filter (passes data w)).map (rectOf data w)) := by
  show (strideList h 2).foldl
      (fun paths y => (strideList w 2).foldl
        (fun paths x =>
          if 128 < alphaAt data w (x, y) then paths ++ rectOf data w (x, y) else paths)
        paths) ""
      = strConcat (((sampledCoords w h).filter (passes data w)).map (rectOf data w))
  have hinner : ∀ (y : Nat) (acc : String),
      (strideList w 2).foldl
        (fun paths x =>
          if 128 < alphaAt data w (x, y) then paths ++ rectOf data w (x, y) else paths)
        acc
        = acc ++ strConcat (rowRects data w y) := by
    intro y acc
    have := foldl_emit (fun x => rectOf data w (x, y))
      (fun x => 128 < alphaAt data w (x, y)) (strideList w 2) acc
    rw [this]
    congr 1
  have houter : (fun (paths : String) (y : Nat) => (strideList w 2).foldl
        (fun paths x =>
          if 128 < alphaAt data w (x, y) then paths ++ rectOf data w (x, y) else paths)
        paths)
      = fun paths y => paths ++ strConcat (rowRects data w y) := by
    funext paths y
    exact hinner y paths
  rw [houter, foldl_rows (fun y => strConcat (rowRects data w y)) (strideList h 2) "",
    string_empty_append]
  unfold sampledCoords
  induction strideList h 2 with
  | nil => simp [strConcat]
  | cons y ys ih =>
      rw [List.map_cons, strConcat, List.flatMap_cons, List.filter_append, List.map_append,
        strConcat_append, ih, row_eq]

/-! ### Counting rectangle primitives -/

/-- JS whitespace as matched by the minifier's regex class and by trim,
restricted to the ASCII range the converter actually produces. -/
def isJsWs (c : Char) : Bool :=
  c = ' ' || c = '\t' || c = '\n' || c = '\r' || c = '\x0b' || c = '\x0c'

theorem toDigitsCore_digits (fuel : Nat) : ∀ (n : Nat) (acc : List Char),
    (∀ c ∈ acc, c.isDigit = true) →
    ∀ c ∈ Nat.toDigitsCore 10 fuel n acc, c.isDigit = true := by
  induction fuel with
  | zero =>
      intro n acc hacc c hc
      rw [Nat.toDigitsCore] at hc
      exact hacc c hc
  | succ fuel ih =>
      intro n acc hacc c hc
      rw [Nat.toDigitsCore] at hc
      have hd : (Nat.digitChar (n % 10)).isDigit = true :=
        (by decide : ∀ m, m < 10 → (Nat.digitChar m).isDigit = true) _ (Nat.mod_lt _ (by decide))
      have hacc2 : ∀ d ∈ Nat.digitChar (n % 10) :: acc, d.isDigit = true := by
        intro d hdm
        rcases List.mem_cons.mp hdm with h1 | h2
        · rw [h1]; exact hd
        · exact hacc d h2
      by_cases hz : n / 10 = 0
      · rw [if_pos hz] at hc
        exact hacc2 c hc
      · rw [if_neg hz] at hc
        exact ih _ _ hacc2 c hc

theorem repr_digits (n : Nat) : ∀ c ∈ (Nat.repr n).data, c.isDigit = true := by
  intro c hc
  have : (Nat.repr n).data = Nat.toDigitsCore 10 (n + 1) n [] := rfl
  rw [this] at hc
  exact toDigitsCore_digits (n + 1) n [] (by intro c h; cases h) c hc

theorem isDigit_ne {c d : Char} (h : c.isDigit = true) (hd : d.isDigit = false) : c ≠ d := by
  intro he
  rw [he, hd] at h
  exact Bool.noConfusion h

/-- The property that a character list is free of the tag opener character. -/
def noLt (l : List Char) : Prop := ∀ c ∈ l, c ≠ '<'

theorem noLt_append {a b : List Char} (ha : noLt a) (hb : noLt b) : noLt (a ++ b) :=
  fun c hc => (List.mem_append.mp hc).elim (ha c) (hb c)

theorem noLt_repr (n : Nat) : noLt (Nat.repr n).data :=
  fun c hc => isDigit_ne (repr_digits n c hc) (by decide)

theorem leadsWith_append {pat u : List Char} (b : List Char)
    (h : leadsWith pat u = true) : leadsWith pat (u ++ b) = true := by
  induction pat generalizing u with
  | nil => rfl
  | cons p ps ih =>
      cases u with
      | nil => exact absurd h (by simp [leadsWith])
      | cons x xs =>
          rw [List.cons_append, leadsWith] at *
          rcases Bool.and_eq_true_iff.mp h with ⟨h1, h2⟩
          rw [h1, ih h2]
          rfl

theorem leadsWith_append_iff {pat u : List Char} (b : List Char)
    (hlen : pat.length ≤ u.length) : leadsWith pat (u ++ b) = leadsWith pat u := by
  induction pat generalizing u with
  | nil => rfl
  | cons p ps ih =>
      cases u with
      | nil => exact absurd hlen (by simp)
      | cons x xs =>
          rw [List.cons_append, leadsWith, leadsWith,
            ih (Nat.le_of_succ_le_succ (by simpa using hlen))]

theorem countPat_append_clean {pat : List Char} (pr : List Char)
    (hpat : pat = '<' :: pr) {a : List Char} (b : List Char) (ha : noLt a) :
    countPat pat (a ++ b) = countPat pat b := by
  induction a with
  | nil => rfl
  | cons c cs ih =>
      have hne : leadsWith pat (c :: (cs ++ b)) = false := by
        rw [hpat, leadsWith]
        have : decide ('<' = c) = false :=
          decide_eq_false (fun he => ha c (List.mem_cons_self c cs) he.symm)
        rw [this]
        rfl
      rw [List.cons_append, countPat, hne, if_neg (by simp)]
      exact (Nat.zero_add _).trans (ih (fun d hd => ha d (List.mem_cons_of_mem c hd)))

theorem countPat_append_tag {pat : List Char} (pr ut : List Char)
    (hpat : pat = '<' :: pr) (hut : noLt ut)
    (hlen : pat.length ≤ ('<' :: ut).length) (b : List Char) :
    countPat pat (('<' :: ut) ++ b)
      = (if leadsWith pat ('<' :: ut) then 1 else 0) + countPat pat b := by
  rw [List.cons_append, countPat, ← List.cons_append,
    leadsWith_append_iff b hlen, countPat_append_clean pr hpat b hut]

theorem string_data_append (a b : String) : (a ++ b).data = a.data ++ b.data := rfl

theorem noLt_of_all (l : List Char) (h : l.all (fun c => decide (c ≠ '<')) = true) :
    noLt l := by
  intro c hc
  exact of_decide_eq_true (List.all_eq_true.mp h c hc)

theorem countPat_rect (x y s r g b : Nat) (rest : List Char) :
    countPat "<rect".data ((rectStr x y s r g b).data ++ rest)
      = 1 + countPat "<rect".data rest := by
  unfold rectStr colorStr
  simp only [string_data_append, List.append_assoc]
  rw [countPat_append_tag ['r', 'e', 'c', 't'] ['r', 'e', 'c', 't', ' ', 'x', '=', '\"'] rfl
    (noLt_of_all _ (by decide)) (by decide)]
  rw [if_pos (by decide)]
  congr 1
  rw [countPat_append_clean ['r', 'e', 'c', 't'] rfl _ (noLt_repr x),
    countPat_append_clean ['r', 'e', 'c', 't'] rfl _
      (noLt_of_all ['\"', ' ', 'y', '=', '\"'] (by decide)),
    countPat_append_clean ['r', 'e', 'c', 't'] rfl _ (noLt_repr y),
    countPat_append_clean ['r', 'e', 'c', 't'] rfl _
      (noLt_of_all ['\"', ' ', 'w', 'i', 'd', 't', 'h', '=', '\"'] (by decide)),
    countPat_append_clean ['r', 'e', 'c', 't'] rfl _ (noLt_repr s),
    countPat_append_clean ['r', 'e', 'c', 't'] rfl _
      (noLt_of_all ['\"', ' ', 'h', 'e', 'i', 'g', 'h', 't', '=', '\"'] (by decide)),
    countPat_append_clean ['r', 'e', 'c', 't'] rfl _ (noLt_repr s),
    countPat_append_clean ['r', 'e', 'c', 't'] rfl _
      (noLt_of_all ['\"', ' ', 'f', 'i', 'l', 'l', '=', '\"'] (by decide)),
    countPat_append_clean ['r', 'e', 'c', 't'] rfl _
      (noLt_of_all ['r', 'g', 'b', '('] (by decide)),
    countPat_append_clean ['r', 'e', 'c', 't'] rfl _ (noLt_repr r),
    countPat_append_clean ['r', 'e', 'c', 't'] rfl _ (noLt_of_all [','] (by decide)),
    countPat_append_clean ['r', 'e', 'c', 't'] rfl _ (noLt_repr g),
    countPat_append_clean ['r', 'e', 'c', 't'] rfl _ (noLt_of_all [','] (by decide)),
    countPat_append_clean ['r', 'e', 'c', 't'] rfl _ (noLt_repr b),
    countPat_append_clean ['r', 'e', 'c', 't'] rfl _ (noLt_of_all [')'] (by decide)),
    countPat_append_clean ['r', 'e', 'c', 't'] rfl _
      (noLt_of_all ['\"', ' ', '/', '>'] (by decide))]

theorem rectCount_concat (data : List Nat) (w : Nat) (ps : List (Nat × Nat)) :
    countPat "<rect".data (strConcat (ps.map (rectOf data w))).data = ps.length := by
  induction ps with
  | nil => rfl
  | cons p ps ih =>
      rw [List.map_cons, strConcat, string_data_append]
      show countPat "<rect".data
        ((rectStr p.1 p.2 2 (chan data w p.1 p.2 0) (chan data w p.1 p.2 1)
          (chan data w p.1 p.2 2)).data ++ (strConcat (ps.map (rectOf data w))).data)
        = (p :: ps).length
      rw [countPat_rect, ih, List.length_cons, Nat.add_comm]

theorem strideList_two_length (limit : Nat) :
    (strideList limit 2).length = (limit + 1) / 2 := by
  simp [strideList]

theorem sampledCoords_length (w h : Nat) :
    (sampledCoords w h).length = ((w + 1) / 2) * ((h + 1) / 2) := by
  unfold sampledCoords
  rw [List.length_flatMap]
  have : ∀ y : Nat, ((strideList w 2).map (fun x => (x, y))).length = (w + 1) / 2 := by
    intro y
    rw [List.length_map, strideList_two_length]
  calc ((strideList h 2).map
          (fun y => ((strideList w 2).map (fun x => (x, y))).length)).sum
      = ((strideList h 2).map (fun _ => (w + 1) / 2)).sum := by
          congr 1
          exact List.map_congr_left (fun y _ => this y)
    _ = (strideList h 2).length * ((w + 1) / 2) := by
          rw [List.map_const']
          simp [List.sum_replicate, smul_eq_mul]
    _ = ((w + 1) / 2) * ((h + 1) / 2) := by
          rw [strideList_two_length, Nat.mul_comm]

/-- C1: for a `w × h` bitmap (both positive) and the sampler's fixed stride 2,
the number of rectangle primitives in the sampler's output equals exactly the
number of visited coordinates whose alpha exceeds the threshold 128; the
visited coordinates number `⌈w/2⌉ * ⌈h/2⌉`; and a fully transparent image
(alpha never above 128 at any visited coordinate) yields zero primitives. -/
theorem c1_primitive_count (data : List Nat) (w h : Nat) (hw : 0 < w) (hh : 0 < h) :
    rectCount (traceToSvgPath data w h)
        = ((sampledCoords w h).filter (passes data w)).length
      ∧ (sampledCoords w h).length = ((w + 1) / 2) * ((h + 1) / 2)
      ∧ ((∀ p ∈ sampledCoords w h, alphaAt data w p ≤ 128) →
          rectCount (traceToSvgPath data w h) = 0) := by
  refine ⟨?_, sampledCoords_length w h, ?_⟩
  · rw [rectCount, traceToSvgPath_eq, rectCount_concat]
  · intro hall
    rw [rectCount, traceToSvgPath_eq, rectCount_concat]
    have : (sampledCoords w h).filter (passes data w) = [] := by
      rw [List.filter_eq_nil_iff]
      intro p hp
      have := hall p hp
      simp only [passes, decide_eq_true_eq]
      omega
    rw [this]
    rfl

/-- Witness for C1 at a fully transparent 4×4 bitmap. -/
theorem c1_primitive_count_witness :
    0 < 4 ∧ 0 < 4 ∧
      (rectCount (traceToSvgPath (List.replicate 64 0) 4 4)
          = ((sampledCoords 4 4).filter (passes (List.replicate 64 0) 4)).length
        ∧ (sampledCoords 4 4).length = ((4 + 1) / 2) * ((4 + 1) / 2)
        ∧ ((∀ p ∈ sampledCoords 4 4, alphaAt (List.replicate 64 0) 4 p ≤ 128) →
            rectCount (traceToSvgPath (List.replicate 64 0) 4 4) = 0)) :=
  ⟨by decide, by decide,
    c1_primitive_count (List.replicate 64 0) 4 4 (by decide) (by decide)⟩

/-- A fully opaque red 4×4 RGBA bitmap. -/
def red4x4 : List Nat := (List.replicate 16 [255, 0, 0, 255]).flatten

/-- C4: for every visited coordinate whose alpha exceeds the threshold the
sampler emits exactly one primitive — a stride-sided square at that
coordinate filled with the pixel's exact RGB triple — and the output string
is the concatenation of these primitives in raster-scan (row-major) order
with no deduplication or merging; in particular a fully opaque red 4×4
image with stride 2 yields exactly the four 2×2 `rgb(255,0,0)` squares. -/
theorem c4_emission_order (data : List Nat) (w h : Nat) :
    traceToSvgPath data w h
        = strConcat (((sampledCoords w h).filter (passes data w)).map (rectOf data w))
      ∧ traceToSvgPath red4x4 4 4
        = strConcat [rectStr 0 0 2 255 0 0, rectStr 2 0 2 255 0 0,
            rectStr 0 2 2 255 0 0, rectStr 2 2 2 255 0 0] :=
  ⟨traceToSvgPath_eq data w h, by decide⟩

/-- C9: the opacity cutoff is strict at 128 — a sampled pixel contributes a
primitive exactly when its alpha is strictly greater than 128, and a pixel
with alpha exactly 128 emits nothing. -/
theorem c9_strict_threshold (r g b a : Nat) :
    traceToSvgPath [r, g, b, a] 1 1
        = (if 128 < a then rectStr 0 0 2 r g b else "")
      ∧ traceToSvgPath [r, g, b, 128] 1 1 = "" := by
  constructor
  · show (if 128 < a then "" ++ rectStr 0 0 2 r g b else "")
      = if 128 < a then rectStr 0 0 2 r g b else ""
    by_cases h : 128 < a
    · rw [if_pos h, if_pos h, string_empty_append]
    · rw [if_neg h, if_neg h]
  · rfl

theorem mem_strideList_two {x limit : Nat} (hx : x ∈ strideList limit 2) :
    ∃ k, k < (limit + 2 - 1) / 2 ∧ x = k * 2 := by
  unfold strideList at hx
  rcases List.mem_map.mp hx with ⟨k, hk, rfl⟩
  exact ⟨k, List.mem_range.mp hk, rfl⟩

theorem strideList_two_mem {x limit : Nat} (hk : ∃ k, k < (limit + 2 - 1) / 2 ∧ x = k * 2) :
    x ∈ strideList limit 2 := by
  rcases hk with ⟨k, hk, rfl⟩
  exact List.mem_map.mpr ⟨k, List.mem_range.mpr hk, rfl⟩

/-- C10: every sampled coordinate lies strictly inside the bitmap
(`x < w`, `y < h`), and each emitted square can overflow the right or
bottom edge by at most `stride - 1 = 1` pixel (`x + 2 ≤ w + 1`,
`y + 2 ≤ h + 1`); moreover when a dimension is odd the last sampled
column (resp. row) really does overflow the declared viewport. -/
theorem c10_overflow (w h : Nat) :
    (∀ data : List Nat, ∀ p ∈ (sampledCoords w h).filter (passes data w),
        p.1 < w ∧ p.2 < h ∧ p.1 + 2 ≤ w + 1 ∧ p.2 + 2 ≤ h + 1)
      ∧ (w % 2 = 1 → 0 < h → ∃ p ∈ sampledCoords w h, w < p.1 + 2)
      ∧ (h % 2 = 1 → 0 < w → ∃ p ∈ sampledCoords w h, h < p.2 + 2) := by
  refine ⟨?_, ?_, ?_⟩
  · intro data p hp
    have hmem := List.mem_of_mem_filter hp
    unfold sampledCoords at hmem
    rcases List.mem_flatMap.mp hmem with ⟨y, hy, hpm⟩
    rcases List.mem_map.mp hpm with ⟨x, hxm, rfl⟩
    rcases mem_strideList_two hxm with ⟨kx, hkx, rfl⟩
    rcases mem_strideList_two hy with ⟨ky, hky, rfl⟩
    refine ⟨?_, ?_, ?_, ?_⟩ <;> simp only [] <;> omega
  · intro hodd hh
    refine ⟨(w - 1, 0), ?_, by omega⟩
    unfold sampledCoords
    refine List.mem_flatMap.mpr ⟨0, strideList_two_mem ⟨0, by omega, by omega⟩, ?_⟩
    exact List.mem_map.mpr ⟨w - 1, strideList_two_mem ⟨w / 2, by omega, by omega⟩, rfl⟩
  · intro hodd hw
    refine ⟨(0, h - 1), ?_, by omega⟩
    unfold sampledCoords
    refine List.mem_flatMap.mpr
      ⟨h - 1, strideList_two_mem ⟨h / 2, by omega, by omega⟩, ?_⟩
    exact List.mem_map.mpr ⟨0, strideList_two_mem ⟨0, by omega, by omega⟩, rfl⟩

/-- Witness for C10 on a 3×3 opaque bitmap: the sample at `(2, 0)` is in
bounds but its square ends at `x = 4 > 3`. -/
theorem c10_overflow_witness :
    ((3 : Nat) % 2 = 1 ∧ 0 < 3)
      ∧ ((2, 0) ∈ (sampledCoords 3 3).filter (passes (List.replicate 36 255) 3)
          ∧ (2 < 3 ∧ 0 < 3 ∧ 2 + 2 ≤ 3 + 1 ∧ 0 + 2 ≤ 3 + 1))
      ∧ (∃ p ∈ sampledCoords 3 3, 3 < p.1 + 2) :=
  ⟨⟨by decide, by decide⟩,
   ⟨by decide, (c10_overflow 3 3).1 (List.replicate 36 255) (2, 0) (by decide)⟩,
   (c10_overflow 3 3).2.1 (by decide) (by decide)⟩

/-! ### The minifier -/

/-- Scanner state for comment stripping: either outside a comment, or inside
a candidate comment with the consumed text buffered (reversed) in `pending`,
`skip` opener characters still to consume, and `dash` counting the
consecutive dashes seen immediately before the current position. -/
inductive StripState where
  | normal : StripState
  | comment (pending : List Char) (skip dash : Nat) : StripState

/-- Embedding of the global regex replacement `/<!--[\s\S]*?-->/g` → `""` as
a left-to-right scan: a comment opener starts a buffered skip up to and
including the nearest later `-->`; if the input ends with no closer the
buffered text is emitted verbatim (the regex then has no match there). -/
def stripRun : StripState → List Char → List Char
  | .normal, [] => []
  | .comment pending _ _, [] => pending.reverse
  | .normal, c :: rest =>
      if leadsWith ['<', '!', '-', '-'] (c :: rest) then
        stripRun (.comment [c] 3 0) rest
      else c :: stripRun .normal rest
  | .comment pending (skip + 1) _, c :: rest =>
      stripRun (.comment (c :: pending) skip 0) rest
  | .comment pending 0 dash, c :: rest =>
      if c = '-' then stripRun (.comment (c :: pending) 0 (min (dash + 1) 2)) rest
      else if c = '>' ∧ 2 ≤ dash then stripRun .normal rest
      else stripRun (.comment (c :: pending) 0 0) rest

/-- Embedding of the global regex replacement `/>\s+</g` → `"><"` as a
left-to-right scan: after a `>` the following whitespace run is buffered
(reversed) and dropped exactly when the next non-whitespace character is a
`<`; otherwise it is emitted unchanged. -/
def collapseRun : Option (List Char) → List Char → List Char
  | none, [] => []
  | some p, [] => p.reverse
  | none, c :: rest =>
      if c = '>' then '>' :: collapseRun (some []) rest
      else c :: collapseRun none rest
  | some p, c :: rest =>
      if isJsWs c then collapseRun (some (c :: p)) rest
      else if c = '<' then '<' :: collapseRun none rest
      else p.reverse ++ (if c = '>' then '>' :: collapseRun (some []) rest
        else c :: collapseRun none rest)

/-- Removes trailing whitespace, one step of JS `trim`. -/
def dropEndWs : List Char → List Char
  | [] => []
  | c :: rest =>
      match dropEndWs rest with
      | [] => if isJsWs c then [] else [c]
      | r => c :: r

/-- JS `String.prototype.trim` on the ASCII whitespace the converter
produces: drop leading then trailing whitespace. -/
def trimChars (l : List Char) : List Char := dropEndWs (l.dropWhile isJsWs)

/-- Embedding of `minifySvg`: strip comments, collapse whitespace between a
`>` and a `<`, then trim both ends. -/
def minifySvg (s : String) : String :=
  String.mk (trimChars (collapseRun none (stripRun .normal s.data)))

example : minifySvg "  <svg> <g>  </g> </svg>  " = "<svg><g></g></svg>" := by decide

example : minifySvg "<a><!-- note --><b/></a>" = "<a><b/></a>" := by decide

example : minifySvg "<!<!---->--ab-->" = "<!--ab-->" := by decide

example : minifySvg (minifySvg "<!<!---->--ab-->") = "" := by decide

/-! ### Idempotence analysis of the whitespace collapse -/

/-- Whether the collapse regex `>\s+<` matches at the head of the list. -/
def matchAt (l : List Char) : Bool :=
  match l with
  | [] => false
  | c :: rest =>
      c = '>' && !(rest.takeWhile isJsWs).isEmpty
        && ((rest.dropWhile isJsWs).head? == some '<')

/-- Whether the collapse regex has no match anywhere in the list. -/
def noMatch : List Char → Bool
  | [] => true
  | c :: rest => !matchAt (c :: rest) && noMatch rest

theorem noMatch_cons {c : Char} {rest : List Char} (h : noMatch (c :: rest) = true) :
    matchAt (c :: rest) = false ∧ noMatch rest = true := by
  rw [noMatch, Bool.and_eq_true, Bool.not_eq_true'] at h
  exact h

theorem ws_cases {c : Char} (h : isJsWs c = true) :
    c = ' ' ∨ c = '\t' ∨ c = '\n' ∨ c = '\r' ∨ c = '\x0b' ∨ c = '\x0c' := by
  rw [isJsWs] at h
  simp only [Bool.or_eq_true, decide_eq_true_eq] at h
  tauto

theorem ws_ne_gt {c : Char} (h : isJsWs c = true) : c ≠ '>' := by
  rcases ws_cases h with rfl | rfl | rfl | rfl | rfl | rfl <;> decide

theorem ws_ne_lt {c : Char} (h : isJsWs c = true) : c ≠ '<' := by
  rcases ws_cases h with rfl | rfl | rfl | rfl | rfl | rfl <;> decide

theorem matchAt_cons_ne {c : Char} {rest : List Char} (h : c ≠ '>') :
    matchAt (c :: rest) = false := by
  rw [matchAt]
  rw [decide_eq_false h]
  rfl

theorem cond_of_not_matchAt {rest : List Char} (h : matchAt ('>' :: rest) = false) :
    rest.takeWhile isJsWs = [] ∨ (rest.dropWhile isJsWs).head? ≠ some '<' := by
  by_cases h1 : rest.takeWhile isJsWs = []
  · exact Or.inl h1
  · right
    intro h2
    rw [matchAt] at h
    rw [h2] at h
    simp [List.isEmpty_iff, h1] at h

theorem matchAt_false_of_cond {rest : List Char}
    (h : rest.takeWhile isJsWs = [] ∨ (rest.dropWhile isJsWs).head? ≠ some '<') :
    matchAt ('>' :: rest) = false := by
  rw [matchAt]
  rcases h with h | h
  · rw [h]
    rfl
  · have : ((rest.dropWhile isJsWs).head? == some '<') = false := by
      simpa using h
    rw [this]
    simp

theorem noMatch_allWs {v : List Char} (hv : ∀ c ∈ v, isJsWs c = true) :
    noMatch v = true := by
  induction v with
  | nil => rfl
  | cons c rest ih =>
      rw [noMatch, Bool.and_eq_true, Bool.not_eq_true']
      refine ⟨matchAt_cons_ne (ws_ne_gt (hv c (List.mem_cons_self c rest))), ?_⟩
      exact ih (fun d hd => hv d (List.mem_cons_of_mem c hd))

theorem collapseRun_id (l : List Char) :
    (noMatch l = true → collapseRun none l = l)
      ∧ (∀ p : List Char, noMatch l = true →
          ((p = [] ∧ l.takeWhile isJsWs = []) ∨ (l.dropWhile isJsWs).head? ≠ some '<') →
          collapseRun (some p) l = p.reverse ++ l) := by
  induction l with
  | nil =>
      refine ⟨fun _ => rfl, fun p _ _ => ?_⟩
      rw [collapseRun, List.append_nil]
  | cons c rest ih =>
      obtain ⟨ihA, ihB⟩ := ih
      constructor
      · intro hnm
        obtain ⟨hma, hrest⟩ := noMatch_cons hnm
        by_cases hgt : c = '>'
        · subst hgt
          rw [collapseRun, if_pos rfl]
          have hstep := ihB [] hrest (by
            rcases cond_of_not_matchAt hma with h | h
            · exact Or.inl ⟨rfl, h⟩
            · exact Or.inr h)
          rw [hstep, List.reverse_nil, List.nil_append]
        · rw [collapseRun, if_neg hgt, ihA hrest]
      · intro p hnm hcond
        obtain ⟨hma, hrest⟩ := noMatch_cons hnm
        by_cases hws : isJsWs c = true
        · have hcond2 : (c :: p = [] ∧ rest.takeWhile isJsWs = [])
              ∨ (rest.dropWhile isJsWs).head? ≠ some '<' := by
            rcases hcond with ⟨_, htw⟩ | hd
            · rw [List.takeWhile_cons_of_pos hws] at htw
              exact absurd htw (List.cons_ne_nil _ _)
            · rw [List.dropWhile_cons_of_pos hws] at hd
              exact Or.inr hd
          rw [collapseRun, if_pos hws, ihB (c :: p) hrest hcond2,
            List.reverse_cons, List.append_assoc, List.singleton_append]
        · by_cases hlt : c = '<'
          · subst hlt
            have hp : p = [] := by
              rcases hcond with ⟨hp, _⟩ | hd
              · exact hp
              · rw [List.dropWhile_cons_of_neg hws] at hd
                exact absurd rfl hd
            subst hp
            rw [collapseRun, if_neg hws, if_pos rfl, ihA hrest, List.reverse_nil,
              List.nil_append]
          · by_cases hgt : c = '>'
            · subst hgt
              rw [collapseRun, if_neg hws, if_neg hlt, if_pos rfl]
              have hstep := ihB [] hrest (by
                rcases cond_of_not_matchAt hma with h | h
                · exact Or.inl ⟨rfl, h⟩
                · exact Or.inr h)
              rw [hstep, List.reverse_nil, List.nil_append]
            · rw [collapseRun, if_neg hws, if_neg hlt, if_neg hgt, ihA hrest]

theorem noMatch_ws_append {v z : List Char} (hv : ∀ c ∈ v, isJsWs c = true)
    (hz : noMatch z = true) : noMatch (v ++ z) = true := by
  induction v with
  | nil => exact hz
  | cons c vs ih =>
      rw [List.cons_append, noMatch, Bool.and_eq_true, Bool.not_eq_true']
      exact ⟨matchAt_cons_ne (ws_ne_gt (hv c (List.mem_cons_self c vs))),
        ih (fun d hd => hv d (List.mem_cons_of_mem c hd))⟩

theorem dropWhile_append_all {v : List Char} (q : Char → Bool) (z : List Char)
    (hv : ∀ c ∈ v, q c = true) : (v ++ z).dropWhile q = z.dropWhile q := by
  induction v with
  | nil => rfl
  | cons c vs ih =>
      rw [List.cons_append, List.dropWhile_cons_of_pos (hv c (List.mem_cons_self c vs))]
      exact ih (fun d hd => hv d (List.mem_cons_of_mem c hd))

theorem dropWhile_all_nil {v : List Char} (q : Char → Bool)
    (hv : ∀ c ∈ v, q c = true) : v.dropWhile q = [] := by
  have := dropWhile_append_all q [] hv
  rwa [List.append_nil] at this

theorem collapseRun_noMatch (l : List Char) :
    (noMatch (collapseRun none l) = true)
      ∧ (∀ p : List Char, (∀ c ∈ p, isJsWs c = true) →
          noMatch (collapseRun (some p) l) = true
            ∧ ((collapseRun (some p) l).takeWhile isJsWs = []
                ∨ ((collapseRun (some p) l).dropWhile isJsWs).head? ≠ some '<')) := by
  induction l with
  | nil =>
      refine ⟨rfl, fun p hp => ?_⟩
      rw [collapseRun]
      have hrev : ∀ c ∈ p.reverse, isJsWs c = true :=
        fun c hc => hp c (List.mem_reverse.mp hc)
      refine ⟨noMatch_allWs hrev, Or.inr ?_⟩
      rw [dropWhile_all_nil isJsWs hrev]
      simp
  | cons c rest ih =>
      obtain ⟨ihA, ihB⟩ := ih
      have hBnil := ihB [] (by intro d hd; cases hd)
      constructor
      · by_cases hgt : c = '>'
        · subst hgt
          rw [collapseRun, if_pos rfl, noMatch, Bool.and_eq_true, Bool.not_eq_true']
          exact ⟨matchAt_false_of_cond hBnil.2, hBnil.1⟩
        · rw [collapseRun, if_neg hgt, noMatch, Bool.and_eq_true, Bool.not_eq_true']
          exact ⟨matchAt_cons_ne hgt, ihA⟩
      · intro p hp
        have hrev : ∀ d ∈ p.reverse, isJsWs d = true :=
          fun d hd => hp d (List.mem_reverse.mp hd)
        by_cases hws : isJsWs c = true
        · rw [collapseRun, if_pos hws]
          exact ihB (c :: p) (by
            intro d hd
            rcases List.mem_cons.mp hd with rfl | hd2
            · exact hws
            · exact hp d hd2)
        · by_cases hlt : c = '<'
          · subst hlt
            rw [collapseRun, if_neg hws, if_pos rfl]
            refine ⟨?_, Or.inl (List.takeWhile_cons_of_neg (by simpa using hws))⟩
            rw [noMatch, Bool.and_eq_true, Bool.not_eq_true']
            exact ⟨matchAt_cons_ne (by decide), ihA⟩
          · by_cases hgt : c = '>'
            · subst hgt
              rw [collapseRun, if_neg hws, if_neg hlt, if_pos rfl]
              have hn : noMatch ('>' :: collapseRun (some []) rest) = true := by
                rw [noMatch, Bool.and_eq_true, Bool.not_eq_true']
                exact ⟨matchAt_false_of_cond hBnil.2, hBnil.1⟩
              refine ⟨noMatch_ws_append hrev hn, Or.inr ?_⟩
              rw [dropWhile_append_all isJsWs _ hrev,
                List.dropWhile_cons_of_neg (by simpa using hws)]
              simp
            · rw [collapseRun, if_neg hws, if_neg hlt, if_neg hgt]
              have hn : noMatch (c :: collapseRun none rest) = true := by
                rw [noMatch, Bool.and_eq_true, Bool.not_eq_true']
                exact ⟨matchAt_cons_ne hgt, ihA⟩
              refine ⟨noMatch_ws_append hrev hn, Or.inr ?_⟩
              rw [dropWhile_append_all isJsWs _ hrev,
                List.dropWhile_cons_of_neg (by simpa using hws)]
              simp [hlt]

theorem noMatch_dropWhile (q : Char → Bool) {l : List Char} (h : noMatch l = true) :
    noMatch (l.dropWhile q) = true := by
  induction l with
  | nil => rfl
  | cons c rest ih =>
      by_cases hq : q c = true
      · rw [List.dropWhile_cons_of_pos hq]
        exact ih (noMatch_cons h).2
      · rwa [List.dropWhile_cons_of_neg (by simpa using hq)]

theorem dropEndWs_decomp (l : List Char) :
    ∃ v, (∀ c ∈ v, isJsWs c = true) ∧ l = dropEndWs l ++ v := by
  induction l with
  | nil => exact ⟨[], fun c hc => absurd hc (List.not_mem_nil c), rfl⟩
  | cons c rest ih =>
      obtain ⟨v, hv, hrest⟩ := ih
      cases hr : dropEndWs rest with
      | nil =>
          rw [hr, List.nil_append] at hrest
          by_cases hws : isJsWs c = true
          · refine ⟨c :: v, ?_, ?_⟩
            · intro d hd
              rcases List.mem_cons.mp hd with rfl | hd2
              · exact hws
              · exact hv d hd2
            · simp only [dropEndWs, hr]
              rw [if_pos hws, List.nil_append, hrest]
          · refine ⟨v, hv, ?_⟩
            simp only [dropEndWs, hr]
            rw [if_neg hws, List.singleton_append, hrest]
      | cons d ds =>
          refine ⟨v, hv, ?_⟩
          simp only [dropEndWs, hr]
          rw [List.cons_append, ← hr, ← hrest]

theorem takeWhile_append_of_drop_ne (q : Char → Bool) {u : List Char} (v : List Char)
    (h : u.dropWhile q ≠ []) :
    (u ++ v).takeWhile q = u.takeWhile q ∧ (u ++ v).dropWhile q = u.dropWhile q ++ v := by
  induction u with
  | nil => exact absurd rfl h
  | cons c u2 ih =>
      by_cases hq : q c = true
      · rw [List.dropWhile_cons_of_pos hq] at h
        obtain ⟨h1, h2⟩ := ih h
        rw [List.cons_append, List.takeWhile_cons_of_pos hq, List.takeWhile_cons_of_pos hq,
          List.dropWhile_cons_of_pos hq, List.dropWhile_cons_of_pos hq, h1, h2]
        exact ⟨rfl, rfl⟩
      · rw [List.cons_append, List.takeWhile_cons_of_neg (by simpa using hq),
          List.takeWhile_cons_of_neg (by simpa using hq),
          List.dropWhile_cons_of_neg (by simpa using hq),
          List.dropWhile_cons_of_neg (by simpa using hq), List.cons_append]
        exact ⟨rfl, rfl⟩

theorem matchAt_extend {u v : List Char} {c : Char} (h : matchAt (c :: u) = true) :
    matchAt (c :: (u ++ v)) = true := by
  rw [matchAt, Bool.and_eq_true, Bool.and_eq_true] at h
  obtain ⟨⟨hc, htw⟩, hd⟩ := h
  cases hdw : u.dropWhile isJsWs with
  | nil => rw [hdw] at hd; exact absurd hd (by decide)
  | cons d ds =>
      have hne : u.dropWhile isJsWs ≠ [] := by rw [hdw]; exact List.cons_ne_nil _ _
      obtain ⟨h1, h2⟩ := takeWhile_append_of_drop_ne isJsWs v hne
      rw [matchAt, Bool.and_eq_true, Bool.and_eq_true, h1, h2, hdw]
      rw [hdw] at hd
      exact ⟨⟨hc, htw⟩, by simpa using hd⟩

theorem noMatch_drop_ws_end {u v : List Char} (hv : ∀ c ∈ v, isJsWs c = true)
    (h : noMatch (u ++ v) = true) : noMatch u = true := by
  induction u with
  | nil => rfl
  | cons c u2 ih =>
      obtain ⟨hma, hrest⟩ := noMatch_cons (by rwa [List.cons_append] at h)
      rw [noMatch, Bool.and_eq_true, Bool.not_eq_true']
      refine ⟨?_, ih hrest⟩
      by_contra hcon
      rw [Bool.not_eq_false] at hcon
      rw [matchAt_extend hcon] at hma
      exact Bool.noConfusion hma

theorem noMatch_trim {l : List Char} (h : noMatch l = true) :
    noMatch (trimChars l) = true := by
  unfold trimChars
  obtain ⟨v, hv, hdec⟩ := dropEndWs_decomp (l.dropWhile isJsWs)
  exact noMatch_drop_ws_end hv (by rw [← hdec]; exact noMatch_dropWhile isJsWs h)

theorem head_dropWhile_not (q : Char → Bool) {l : List Char} :
    ∀ c, (l.dropWhile q).head? = some c → q c = false := by
  induction l with
  | nil => intro c hc; cases hc
  | cons d rest ih =>
      intro c hc
      by_cases hq : q d = true
      · rw [List.dropWhile_cons_of_pos hq] at hc
        exact ih c hc
      · rw [List.dropWhile_cons_of_neg (by simpa using hq), List.head?_cons,
          Option.some.injEq] at hc
        rw [← hc]
        simpa using hq

theorem dropWhile_eq_self_of_head (q : Char → Bool) {l : List Char}
    (h : ∀ c, l.head? = some c → q c = false) : l.dropWhile q = l := by
  cases l with
  | nil => rfl
  | cons c rest =>
      exact List.dropWhile_cons_of_neg (by simp [h c rfl])

theorem dropEndWs_cons_nil {c : Char} {rest : List Char} (hr : dropEndWs rest = []) :
    dropEndWs (c :: rest) = if isJsWs c then [] else [c] := by
  show (match dropEndWs rest with
    | [] => if isJsWs c then [] else [c]
    | r => c :: r) = if isJsWs c then [] else [c]
  rw [hr]

theorem dropEndWs_cons_cons {c d : Char} {rest ds : List Char}
    (hr : dropEndWs rest = d :: ds) : dropEndWs (c :: rest) = c :: d :: ds := by
  show (match dropEndWs rest with
    | [] => if isJsWs c then [] else [c]
    | r => c :: r) = c :: d :: ds
  rw [hr]

theorem dropEndWs_head (l : List Char) :
    dropEndWs l = [] ∨ (dropEndWs l).head? = l.head? := by
  cases l with
  | nil => exact Or.inl rfl
  | cons c rest =>
      cases hr : dropEndWs rest with
      | nil =>
          by_cases hws : isJsWs c = true
          · left
            rw [dropEndWs_cons_nil hr, if_pos hws]
          · right
            rw [dropEndWs_cons_nil hr, if_neg hws]
            rfl
      | cons d ds =>
          right
          rw [dropEndWs_cons_cons hr]
          rfl

theorem dropEndWs_idem (l : List Char) : dropEndWs (dropEndWs l) = dropEndWs l := by
  induction l with
  | nil => rfl
  | cons c rest ih =>
      cases hr : dropEndWs rest with
      | nil =>
          by_cases hws : isJsWs c = true
          · rw [dropEndWs_cons_nil hr, if_pos hws]
            rfl
          · rw [dropEndWs_cons_nil hr, if_neg hws,
              dropEndWs_cons_nil (show dropEndWs [] = [] from rfl), if_neg hws]
      | cons d ds =>
          rw [hr] at ih
          rw [dropEndWs_cons_cons hr, dropEndWs_cons_cons ih]

theorem trim_idem (l : List Char) : trimChars (trimChars l) = trimChars l := by
  unfold trimChars
  have hde : (dropEndWs (l.dropWhile isJsWs)).dropWhile isJsWs
      = dropEndWs (l.dropWhile isJsWs) := by
    rcases dropEndWs_head (l.dropWhile isJsWs) with h | h
    · rw [h]
      rfl
    · apply dropWhile_eq_self_of_head
      intro c hc
      rw [h] at hc
      exact head_dropWhile_not isJsWs c hc
  rw [hde, dropEndWs_idem]

theorem collapseRun_mem (l : List Char) :
    (∀ c, c ∈ collapseRun none l → c ∈ l)
      ∧ (∀ p c, c ∈ collapseRun (some p) l → c ∈ p ∨ c ∈ l) := by
  induction l with
  | nil =>
      refine ⟨fun c hc => absurd hc (List.not_mem_nil c), fun p c hc => ?_⟩
      rw [collapseRun] at hc
      exact Or.inl (List.mem_reverse.mp hc)
  | cons a rest ih =>
      obtain ⟨ihA, ihB⟩ := ih
      constructor
      · intro c hc
        by_cases hgt : a = '>'
        · subst hgt
          rw [collapseRun, if_pos rfl] at hc
          rcases List.mem_cons.mp hc with rfl | hc2
          · exact List.mem_cons_self _ _
          · rcases ihB [] c hc2 with h | h
            · exact absurd h (List.not_mem_nil c)
            · exact List.mem_cons_of_mem _ h
        · rw [collapseRun, if_neg hgt] at hc
          rcases List.mem_cons.mp hc with rfl | hc2
          · exact List.mem_cons_self _ _
          · exact List.mem_cons_of_mem _ (ihA c hc2)
      · intro p c hc
        by_cases hws : isJsWs a = true
        · rw [collapseRun, if_pos hws] at hc
          rcases ihB (a :: p) c hc with h | h
          · rcases List.mem_cons.mp h with rfl | h2
            · exact Or.inr (List.mem_cons_self _ _)
            · exact Or.inl h2
          · exact Or.inr (List.mem_cons_of_mem _ h)
        · by_cases hlt : a = '<'
          · subst hlt
            rw [collapseRun, if_neg hws, if_pos rfl] at hc
            rcases List.mem_cons.mp hc with rfl | hc2
            · exact Or.inr (List.mem_cons_self _ _)
            · exact Or.inr (List.mem_cons_of_mem _ (ihA c hc2))
          · by_cases hgt : a = '>'
            · subst hgt
              rw [collapseRun, if_neg hws, if_neg hlt, if_pos rfl] at hc
              rcases List.mem_append.mp hc with h | h
              · exact Or.inl (List.mem_reverse.mp h)
              · rcases List.mem_cons.mp h with rfl | h2
                · exact Or.inr (List.mem_cons_self _ _)
                · rcases ihB [] c h2 with h3 | h3
                  · exact absurd h3 (List.not_mem_nil c)
                  · exact Or.inr (List.mem_cons_of_mem _ h3)
            · rw [collapseRun, if_neg hws, if_neg hlt, if_neg hgt] at hc
              rcases List.mem_append.mp hc with h | h
              · exact Or.inl (List.mem_reverse.mp h)
              · rcases List.mem_cons.mp h with rfl | h2
                · exact Or.inr (List.mem_cons_self _ _)
                · exact Or.inr (List.mem_cons_of_mem _ (ihA c h2))

theorem mem_of_dropWhile (q : Char → Bool) {l : List Char} {c : Char}
    (hc : c ∈ l.dropWhile q) : c ∈ l := by
  induction l with
  | nil => exact absurd hc (List.not_mem_nil c)
  | cons d rest ih =>
      by_cases hq : q d = true
      · rw [List.dropWhile_cons_of_pos hq] at hc
        exact List.mem_cons_of_mem _ (ih hc)
      · rwa [List.dropWhile_cons_of_neg (by simpa using hq)] at hc

theorem mem_trimChars {l : List Char} {c : Char} (hc : c ∈ trimChars l) : c ∈ l := by
  unfold trimChars at hc
  obtain ⟨v, _, hdec⟩ := dropEndWs_decomp (l.dropWhile isJsWs)
  refine mem_of_dropWhile isJsWs (l := l) ?_
  rw [hdec]
  exact List.mem_append.mpr (Or.inl hc)

theorem leadsWith_mem {pat l : List Char} (h : leadsWith pat l = true) :
    ∀ c ∈ pat, c ∈ l := by
  induction pat generalizing l with
  | nil => intro c hc; exact absurd hc (List.not_mem_nil c)
  | cons p ps ih =>
      cases l with
      | nil => exact absurd h (by rw [leadsWith]; simp)
      | cons x xs =>
          rw [leadsWith, Bool.and_eq_true] at h
          obtain ⟨h1, h2⟩ := h
          intro c hc
          rcases List.mem_cons.mp hc with rfl | hc2
          · rw [of_decide_eq_true h1]
            exact List.mem_cons_self _ _
          · exact List.mem_cons_of_mem _ (ih h2 c hc2)

theorem stripRun_id_no_bang {l : List Char} (h : ∀ c ∈ l, c ≠ '!') :
    stripRun .normal l = l := by
  induction l with
  | nil => rfl
  | cons c rest ih =>
      have hlw : leadsWith ['<', '!', '-', '-'] (c :: rest) = false := by
        by_contra hcon
        rw [Bool.not_eq_false] at hcon
        exact h '!' (leadsWith_mem hcon '!' (by decide)) rfl
      rw [stripRun, if_neg (by simp [hlw]),
        ih (fun d hd => h d (List.mem_cons_of_mem c hd))]

/-- C5 counterexample: `minifySvg` is not idempotent — stripping the inner
comment of this input splices its surroundings into a brand-new comment,
which a second pass then removes. -/
theorem c5_not_idempotent :
    minifySvg (minifySvg "<!<!---->--ab-->") ≠ minifySvg "<!<!---->--ab-->" := by decide

/-- C5 amended: the minifier is idempotent on every input containing no `!`
character (in particular on every comment-free document); idempotence fails
in general only because comment stripping can create a new comment. -/
theorem c5_idempotent_no_bang (s : String) (h : ∀ c ∈ s.data, c ≠ '!') :
    minifySvg (minifySvg s) = minifySvg s := by
  unfold minifySvg
  rw [stripRun_id_no_bang h]
  have hdata : (String.mk (trimChars (collapseRun none s.data))).data
      = trimChars (collapseRun none s.data) := rfl
  rw [hdata]
  have hbang : ∀ c ∈ trimChars (collapseRun none s.data), c ≠ '!' := by
    intro c hc
    exact h c ((collapseRun_mem s.data).1 c (mem_trimChars hc))
  rw [stripRun_id_no_bang hbang]
  have hnm : noMatch (trimChars (collapseRun none s.data)) = true :=
    noMatch_trim (collapseRun_noMatch s.data).1
  rw [(collapseRun_id (trimChars (collapseRun none s.data))).1 hnm, trim_idem]

/-- Witness for the amended C5 at a concrete comment-free document. -/
theorem c5_idempotent_no_bang_witness :
    (∀ c ∈ ("<svg> <g/>  </svg>" : String).data, c ≠ '!')
      ∧ minifySvg (minifySvg "<svg> <g/>  </svg>") = minifySvg "<svg> <g/>  </svg>" :=
  ⟨by decide, c5_idempotent_no_bang "<svg> <g/>  </svg>" (by decide)⟩

/-! ### The format converter -/

/-- The target-encoding enumeration from `types.ts`, carrying the same five
media types. -/
inductive ImageFormat where
  | png : ImageFormat
  | jpeg : ImageFormat
  | webp : ImageFormat
  | gif : ImageFormat
  | svg : ImageFormat
deriving DecidableEq

/-- The media-type string of each `ImageFormat` member, as in `types.ts`. -/
def mediaType : ImageFormat → String
  | .png => "image/png"
  | .jpeg => "image/jpeg"
  | .webp => "image/webp"
  | .gif => "image/gif"
  | .svg => "image/svg+xml"

/-- The platform-determined inputs of one conversion call: the source file's
declared media type, its text when read as text, whether the 2D context can
be acquired, the canvas dimensions after the scale multiplier, the drawn
bitmap's RGBA data, the base64 data URL returned by `toDataURL`, and the
encoded buffer returned by `toBlob` (`none` when the platform declines).
The quality and scale scalars act only through these platform products. -/
structure ConvertEnv where
  fileType : String
  svgText : String
  ctxAvailable : Bool
  scaledWidth : Nat
  scaledHeight : Nat
  bitmap : List Nat
  dataUrl : String
  encodedBlob : Option (List Nat)

/-- Outcome of one conversion: a resolved text payload, a resolved encoded
buffer, or a rejected promise carrying only an error message. -/
inductive ConvResult where
  | resolved (payload : String) (mType : String) : ConvResult
  | resolvedBlob (bytes : List Nat) (mType : String) : ConvResult
  | rejected (message : String) : ConvResult
deriving DecidableEq

/-- The tracing-strategy envelope of `convertImage` (threshold-150000
variant): viewport-sized `svg` root wrapping one group of rectangle
primitives. -/
def svgTraceWrap (w h : Nat) (paths : String) : String :=
  "<svg xmlns=\"http://www.w3.org/2000/svg\" width=\"" ++ (Nat.repr w ++ ("\" height=\""
    ++ (Nat.repr h ++ ("\" viewBox=\"0 0 " ++ (Nat.repr w ++ (" " ++ (Nat.repr h
    ++ ("\"><g shape-rendering=\"crispEdges\">" ++ (paths ++ "</g></svg>")))))))))

/-- The embedding-strategy envelope of `convertImage`: `svg` root wrapping a
single embedded-image element referencing the base64 data URL. -/
def svgEmbedWrap (w h : Nat) (dataUrl : String) : String :=
  "<svg xmlns=\"http://www.w3.org/2000/svg\" xmlns:xlink=\"http://www.w3.org/1999/xlink\" width=\""
    ++ (Nat.repr w ++ ("\" height=\"" ++ (Nat.repr h
    ++ ("\"><image width=\"100%\" height=\"100%\" xlink:href=\""
    ++ (dataUrl ++ "\" /></svg>")))))

/-- Embedding of the backdrop decision at the top of the drawing path: the
converter fills an opaque white backdrop over the canvas exactly when the
target format is JPEG, and draws the source on top of it. -/
def fillsBackdrop (target : ImageFormat) : Bool := target = ImageFormat.jpeg

/-- Embedding of `convertImage` (threshold-150000 variant).  Asynchronous
platform steps (file reading, image decode, canvas drawing, encoding) are
abstracted into the `ConvertEnv` inputs; the function captures the
converter's branching: SVG→SVG pass-through with minification, rejection
when no 2D context is available, the pixel-count strategy selection for an
SVG target, and the encode-or-reject raster path. -/
def convertImage (env : ConvertEnv) (targetFormat : ImageFormat) : ConvResult :=
  if env.fileType = mediaType .svg ∧ targetFormat = .svg then
    .resolved (minifySvg env.svgText) (mediaType .svg)
  else if env.ctxAvailable = false then
    .rejected "Canvas context failure"
  else if targetFormat = .svg then
    let width := env.scaledWidth
    let height := env.scaledHeight
    let svgContent :=
      if width * height < 150000 then
        svgTraceWrap width height (traceToSvgPath env.bitmap width height)
      else
        svgEmbedWrap width height env.dataUrl
    .resolved (minifySvg svgContent) (mediaType .svg)
  else
    match env.encodedBlob with
    | some bytes => .resolvedBlob bytes (mediaType targetFormat)
    | none => .rejected "Blob generation failed"

/-- C3: when both the source media type and the target are the vector
format, the converter returns exactly the minification of the source
document's text, and the result depends on nothing but that text — no
rasterization, tracing, or canvas state can affect it. -/
theorem c3_passthrough (env env2 : ConvertEnv) (t : ImageFormat)
    (hf : env.fileType = mediaType .svg) (ht : t = ImageFormat.svg)
    (hf2 : env2.fileType = mediaType .svg) (htext : env2.svgText = env.svgText) :
    convertImage env t = .resolved (minifySvg env.svgText) (mediaType .svg)
      ∧ convertImage env2 t = convertImage env t := by
  unfold convertImage
  rw [if_pos ⟨hf, ht⟩, if_pos ⟨hf2, ht⟩, htext]
  exact ⟨rfl, rfl⟩

/-- Witness for C3 at a concrete pass-through request. -/
theorem c3_passthrough_witness :
    ((⟨"image/svg+xml", "<svg> </svg>", true, 1, 1, [], "", none⟩ : ConvertEnv).fileType
        = mediaType .svg
      ∧ (⟨"image/svg+xml", "<svg> </svg>", false, 9, 9, [0], "x", none⟩
          : ConvertEnv).fileType = mediaType .svg)
      ∧ convertImage ⟨"image/svg+xml", "<svg> </svg>", true, 1, 1, [], "", none⟩
          ImageFormat.svg
          = .resolved (minifySvg "<svg> </svg>") (mediaType .svg)
      ∧ convertImage ⟨"image/svg+xml", "<svg> </svg>", false, 9, 9, [0], "x", none⟩
          ImageFormat.svg
          = convertImage ⟨"image/svg+xml", "<svg> </svg>", true, 1, 1, [], "", none⟩
              ImageFormat.svg :=
  ⟨⟨rfl, rfl⟩,
    c3_passthrough ⟨"image/svg+xml", "<svg> </svg>", true, 1, 1, [], "", none⟩
      ⟨"image/svg+xml", "<svg> </svg>", false, 9, 9, [0], "x", none⟩
      ImageFormat.svg rfl rfl rfl rfl⟩

/-- C6: outside the pass-through path, an unavailable 2D context rejects the
conversion; on the raster path a declined encoding buffer rejects it; and a
rejected conversion resolves no payload of either kind — there is no retry
and no fallback output. -/
theorem c6_failure_paths (env : ConvertEnv) (t : ImageFormat)
    (hnp : ¬(env.fileType = mediaType .svg ∧ t = ImageFormat.svg)) :
    (env.ctxAvailable = false →
        convertImage env t = .rejected "Canvas context failure")
      ∧ (env.ctxAvailable = true → t ≠ ImageFormat.svg → env.encodedBlob = none →
          convertImage env t = .rejected "Blob generation failed")
      ∧ (∀ msg, convertImage env t = .rejected msg →
          (∀ p m, convertImage env t ≠ .resolved p m)
            ∧ (∀ b m, convertImage env t ≠ .resolvedBlob b m)) := by
  refine ⟨?_, ?_, ?_⟩
  · intro hctx
    unfold convertImage
    rw [if_neg hnp, if_pos hctx]
  · intro hctx ht hblob
    unfold convertImage
    rw [if_neg hnp, if_neg (by rw [hctx]; exact (by decide : ¬(true = false))), if_neg ht,
      hblob]
  · intro msg hrej
    rw [hrej]
    exact ⟨fun p m hc => ConvResult.noConfusion hc,
      fun b m hc => ConvResult.noConfusion hc⟩

/-- Witness for C6 at concrete failing requests. -/
theorem c6_failure_paths_witness :
    (¬((⟨"image/png", "", false, 1, 1, [], "", none⟩ : ConvertEnv).fileType
          = mediaType .svg ∧ ImageFormat.webp = ImageFormat.svg)
      ∧ (⟨"image/png", "", false, 1, 1, [], "", none⟩ : ConvertEnv).ctxAvailable = false)
      ∧ convertImage ⟨"image/png", "", false, 1, 1, [], "", none⟩ ImageFormat.webp
          = .rejected "Canvas context failure" :=
  ⟨⟨by intro h; exact absurd h.2 (by decide), rfl⟩,
    (c6_failure_paths ⟨"image/png", "", false, 1, 1, [], "", none⟩ ImageFormat.webp
      (by intro h; exact absurd h.2 (by decide))).1 rfl⟩

/-- Spec-side capability table, following the spec's words: whether the
target format can represent transparency.  Of the five enumerated formats
only JPEG cannot (PNG, WebP and GIF carry alpha or 1-bit transparency, and
vector markup is inherently transparent). -/
def specCanRepresentTransparency : ImageFormat → Bool
  | .png => true
  | .jpeg => false
  | .webp => true
  | .gif => true
  | .svg => true

/-- C7: for every non-vector target, the converter flattens against an
opaque backdrop exactly when the target format cannot represent
transparency; formats that can represent transparency get no backdrop fill,
so the drawn surface's transparency is preserved. -/
theorem c7_backdrop_iff (f : ImageFormat) (h : f ≠ ImageFormat.svg) :
    fillsBackdrop f = true ↔ specCanRepresentTransparency f = false := by
  cases f
  case svg => exact absurd rfl h
  all_goals decide

/-- Witness for C7 at the PNG target. -/
theorem c7_backdrop_iff_witness :
    ImageFormat.png ≠ ImageFormat.svg
      ∧ (fillsBackdrop ImageFormat.png = true
          ↔ specCanRepresentTransparency ImageFormat.png = false) :=
  ⟨by decide, c7_backdrop_iff ImageFormat.png (by decide)⟩

theorem ne_mem_of_all {l : List Char} {c : Char} (hc : c ∈ l) (d : Char)
    (h : l.all (fun x => decide (x ≠ d)) = true) : c ≠ d :=
  of_decide_eq_true (List.all_eq_true.mp h c hc)

theorem noGt_repr (n : Nat) : ∀ c ∈ (Nat.repr n).data, c ≠ '>' :=
  fun c hc => isDigit_ne (repr_digits n c hc) (by decide)

theorem noBang_repr (n : Nat) : ∀ c ∈ (Nat.repr n).data, c ≠ '!' :=
  fun c hc => isDigit_ne (repr_digits n c hc) (by decide)

theorem nm_append_no_gt {a b : List Char} (ha : ∀ c ∈ a, c ≠ '>')
    (hb : noMatch b = true) : noMatch (a ++ b) = true := by
  induction a with
  | nil => exact hb
  | cons c as ih =>
      rw [List.cons_append, noMatch, Bool.and_eq_true, Bool.not_eq_true']
      exact ⟨matchAt_cons_ne (ha c (List.mem_cons_self c as)),
        ih (fun d hd => ha d (List.mem_cons_of_mem c hd))⟩

/-- A character list is `gtClosed` when every `>` inside it is eventually
followed, within the list, by a non-whitespace character: no collapse match
starting at one of its `>`s can reach past its end. -/
def gtClosedB : List Char → Bool
  | [] => true
  | c :: rest =>
      (if c = '>' then !(rest.dropWhile isJsWs).isEmpty else true) && gtClosedB rest

theorem nm_append_closed {a b : List Char} (hg : gtClosedB a = true)
    (ha : noMatch a = true) (hb : noMatch b = true) : noMatch (a ++ b) = true := by
  induction a with
  | nil => exact hb
  | cons c as ih =>
      rw [gtClosedB, Bool.and_eq_true] at hg
      obtain ⟨hg1, hg2⟩ := hg
      obtain ⟨hma, has⟩ := noMatch_cons ha
      rw [List.cons_append, noMatch, Bool.and_eq_true, Bool.not_eq_true']
      refine ⟨?_, ih hg2 has⟩
      by_cases hgt : c = '>'
      · subst hgt
        have hne : as.dropWhile isJsWs ≠ [] := by
          intro hnil
          rw [if_pos rfl, hnil] at hg1
          exact absurd hg1 (by decide)
        obtain ⟨ht, hd⟩ := takeWhile_append_of_drop_ne isJsWs b hne
        rcases cond_of_not_matchAt hma with h | h
        · exact matchAt_false_of_cond (Or.inl (by rw [ht, h]))
        · apply matchAt_false_of_cond
          right
          rw [hd]
          cases hdw : as.dropWhile isJsWs with
          | nil => exact absurd hdw hne
          | cons d ds =>
              rw [hdw] at h
              rw [List.cons_append, List.head?_cons]
              rw [List.head?_cons] at h
              exact h
      · exact matchAt_cons_ne hgt

theorem append_ne_nil_right {a b : List Char} (hb : b ≠ []) : a ++ b ≠ [] := by
  intro h
  rcases List.append_eq_nil.mp h with ⟨_, h2⟩
  exact hb h2

theorem getLast?_append_right {a b : List Char} (hb : b ≠ []) :
    (a ++ b).getLast? = b.getLast? := by
  induction a with
  | nil => rfl
  | cons c as ih =>
      rw [List.cons_append]
      cases hab : as ++ b with
      | nil => exact absurd hab (append_ne_nil_right hb)
      | cons d ds =>
          rw [List.getLast?_cons_cons, ← hab]
          exact ih

theorem dropEndWs_eq_self {l : List Char}
    (h : ∀ c, l.getLast? = some c → isJsWs c = false) : dropEndWs l = l := by
  induction l with
  | nil => rfl
  | cons c rest ih =>
      cases rest with
      | nil =>
          rw [dropEndWs_cons_nil (show dropEndWs [] = [] from rfl),
            if_neg (by simp [h c rfl])]
      | cons d rest2 =>
          have hr : dropEndWs (d :: rest2) = d :: rest2 := by
            apply ih
            intro e he
            apply h
            rw [List.getLast?_cons_cons]
            exact he
          rw [dropEndWs_cons_cons hr]

theorem string_mk_data (s : String) : String.mk s.data = s := rfl

theorem embed_data (w h : Nat) (u : String) :
    (svgEmbedWrap w h u).data
      = ("<svg xmlns=\"http://www.w3.org/2000/svg\" xmlns:xlink=\"http://www.w3.org/1999/xlink\" width=\"" : String).data
        ++ ((Nat.repr w).data ++ (("\" height=\"" : String).data ++ ((Nat.repr h).data
        ++ (("\"><image width=\"100%\" height=\"100%\" xlink:href=\"" : String).data
        ++ (u.data ++ ("\" /></svg>" : String).data))))) := rfl

theorem embed_no_bang (w h : Nat) (u : String) (hu : ∀ c ∈ u.data, c ≠ '!') :
    ∀ c ∈ (svgEmbedWrap w h u).data, c ≠ '!' := by
  intro c hc
  rw [embed_data] at hc
  rcases List.mem_append.mp hc with h1 | hc
  · exact ne_mem_of_all h1 '!' (by decide)
  rcases List.mem_append.mp hc with h1 | hc
  · exact noBang_repr w c h1
  rcases List.mem_append.mp hc with h1 | hc
  · exact ne_mem_of_all h1 '!' (by decide)
  rcases List.mem_append.mp hc with h1 | hc
  · exact noBang_repr h c h1
  rcases List.mem_append.mp hc with h1 | hc
  · exact ne_mem_of_all h1 '!' (by decide)
  rcases List.mem_append.mp hc with h1 | h1
  · exact hu c h1
  · exact ne_mem_of_all h1 '!' (by decide)

theorem embed_noMatch (w h : Nat) (u : String) (hu : ∀ c ∈ u.data, c ≠ '>') :
    noMatch (svgEmbedWrap w h u).data = true := by
  rw [embed_data]
  refine nm_append_no_gt (fun c hc => ne_mem_of_all hc '>' (by decide)) ?_
  refine nm_append_no_gt (noGt_repr w) ?_
  refine nm_append_no_gt (fun c hc => ne_mem_of_all hc '>' (by decide)) ?_
  refine nm_append_no_gt (noGt_repr h) ?_
  refine nm_append_closed (by decide) (by decide) ?_
  refine nm_append_no_gt hu ?_
  decide

theorem embed_trim_id (w h : Nat) (u : String) :
    trimChars (svgEmbedWrap w h u).data = (svgEmbedWrap w h u).data := by
  unfold trimChars
  have hdw : (svgEmbedWrap w h u).data.dropWhile isJsWs = (svgEmbedWrap w h u).data := by
    apply dropWhile_eq_self_of_head
    intro c hc
    rw [embed_data,
      show ("<svg xmlns=\"http://www.w3.org/2000/svg\" xmlns:xlink=\"http://www.w3.org/1999/xlink\" width=\"" : String).data
        = '<' :: ("svg xmlns=\"http://www.w3.org/2000/svg\" xmlns:xlink=\"http://www.w3.org/1999/xlink\" width=\"" : String).data
      from rfl, List.cons_append, List.head?_cons, Option.some.injEq] at hc
    rw [← hc]
    decide
  rw [hdw]
  apply dropEndWs_eq_self
  intro c hc
  rw [embed_data] at hc
  have h4 : ("\" /></svg>" : String).data ≠ [] := by decide
  rw [getLast?_append_right (append_ne_nil_right (append_ne_nil_right
      (append_ne_nil_right (append_ne_nil_right (append_ne_nil_right h4))))),
    getLast?_append_right (append_ne_nil_right (append_ne_nil_right
      (append_ne_nil_right (append_ne_nil_right h4)))),
    getLast?_append_right (append_ne_nil_right (append_ne_nil_right
      (append_ne_nil_right h4))),
    getLast?_append_right (append_ne_nil_right (append_ne_nil_right h4)),
    getLast?_append_right (append_ne_nil_right h4),
    getLast?_append_right h4] at hc
  rw [show ("\" /></svg>" : String).data.getLast? = some '>' from by decide,
    Option.some.injEq] at hc
  rw [← hc]
  decide

theorem embed_minify_id (w h : Nat) (u : String)
    (hu : ∀ c ∈ u.data, c ≠ '<' ∧ c ≠ '>' ∧ c ≠ '!' ∧ isJsWs c = false) :
    minifySvg (svgEmbedWrap w h u) = svgEmbedWrap w h u := by
  unfold minifySvg
  rw [stripRun_id_no_bang (embed_no_bang w h u (fun c hc => (hu c hc).2.2.1)),
    (collapseRun_id _).1 (embed_noMatch w h u (fun c hc => (hu c hc).2.1)),
    embed_trim_id, string_mk_data]

theorem embed_rect_count (w h : Nat) (u : String) (hu : ∀ c ∈ u.data, c ≠ '<') :
    countPat "<rect".data (svgEmbedWrap w h u).data = 0 := by
  rw [embed_data,
    show ("<svg xmlns=\"http://www.w3.org/2000/svg\" xmlns:xlink=\"http://www.w3.org/1999/xlink\" width=\"" : String).data
      = '<' :: ("svg xmlns=\"http://www.w3.org/2000/svg\" xmlns:xlink=\"http://www.w3.org/1999/xlink\" width=\"" : String).data
    from rfl,
    countPat_append_tag "rect".data
      ("svg xmlns=\"http://www.w3.org/2000/svg\" xmlns:xlink=\"http://www.w3.org/1999/xlink\" width=\"" : String).data
      rfl (noLt_of_all _ (by decide)) (by decide),
    if_neg (by decide), Nat.zero_add,
    countPat_append_clean "rect".data rfl _ (noLt_repr w),
    countPat_append_clean "rect".data rfl _
      (noLt_of_all ("\" height=\"" : String).data (by decide)),
    countPat_append_clean "rect".data rfl _ (noLt_repr h),
    show ("\"><image width=\"100%\" height=\"100%\" xlink:href=\"" : String).data
      = ("\">" : String).data
        ++ ('<' :: ("image width=\"100%\" height=\"100%\" xlink:href=\"" : String).data)
    from rfl, List.append_assoc,
    countPat_append_clean "rect".data rfl _
      (noLt_of_all ("\">" : String).data (by decide)),
    countPat_append_tag "rect".data
      ("image width=\"100%\" height=\"100%\" xlink:href=\"" : String).data
      rfl (noLt_of_all _ (by decide)) (by decide),
    if_neg (by decide), Nat.zero_add,
    countPat_append_clean "rect".data rfl _ hu]
  decide

theorem embed_image_count (w h : Nat) (u : String) (hu : ∀ c ∈ u.data, c ≠ '<') :
    countPat "<image".data (svgEmbedWrap w h u).data = 1 := by
  rw [embed_data,
    show ("<svg xmlns=\"http://www.w3.org/2000/svg\" xmlns:xlink=\"http://www.w3.org/1999/xlink\" width=\"" : String).data
      = '<' :: ("svg xmlns=\"http://www.w3.org/2000/svg\" xmlns:xlink=\"http://www.w3.org/1999/xlink\" width=\"" : String).data
    from rfl,
    countPat_append_tag "image".data
      ("svg xmlns=\"http://www.w3.org/2000/svg\" xmlns:xlink=\"http://www.w3.org/1999/xlink\" width=\"" : String).data
      rfl (noLt_of_all _ (by decide)) (by decide),
    if_neg (by decide), Nat.zero_add,
    countPat_append_clean "image".data rfl _ (noLt_repr w),
    countPat_append_clean "image".data rfl _
      (noLt_of_all ("\" height=\"" : String).data (by decide)),
    countPat_append_clean "image".data rfl _ (noLt_repr h),
    show ("\"><image width=\"100%\" height=\"100%\" xlink:href=\"" : String).data
      = ("\">" : String).data
        ++ ('<' :: ("image width=\"100%\" height=\"100%\" xlink:href=\"" : String).data)
    from rfl, List.append_assoc,
    countPat_append_clean "image".data rfl _
      (noLt_of_all ("\">" : String).data (by decide)),
    countPat_append_tag "image".data
      ("image width=\"100%\" height=\"100%\" xlink:href=\"" : String).data
      rfl (noLt_of_all _ (by decide)) (by decide),
    if_pos (by decide),
    countPat_append_clean "image".data rfl _ hu]
  decide

/-- C2: with a vector-markup target (and no pass-through), the converter
computes the scaled pixel count `width * height`; strictly below 150000 it
selects the tracing strategy, otherwise — including exactly at the
threshold — it deterministically selects the embedding strategy, whose
minified output contains exactly one embedded-image element and no
rectangle primitives (given the platform's data URL is made of text-safe
base64 characters). -/
theorem c2_strategy_selection (env : ConvertEnv)
    (hf : env.fileType ≠ mediaType .svg) (hctx : env.ctxAvailable = true) :
    (env.scaledWidth * env.scaledHeight < 150000 →
        convertImage env .svg
          = .resolved (minifySvg (svgTraceWrap env.scaledWidth env.scaledHeight
              (traceToSvgPath env.bitmap env.scaledWidth env.scaledHeight)))
              (mediaType .svg))
      ∧ (150000 ≤ env.scaledWidth * env.scaledHeight →
          convertImage env .svg
              = .resolved (minifySvg (svgEmbedWrap env.scaledWidth env.scaledHeight
                  env.dataUrl)) (mediaType .svg)
            ∧ ((∀ c ∈ env.dataUrl.data, c ≠ '<' ∧ c ≠ '>' ∧ c ≠ '!' ∧ isJsWs c = false) →
                imageCount (minifySvg (svgEmbedWrap env.scaledWidth env.scaledHeight
                    env.dataUrl)) = 1
                  ∧ rectCount (minifySvg (svgEmbedWrap env.scaledWidth env.scaledHeight
                      env.dataUrl)) = 0)) := by
  have hbase : convertImage env .svg
      = .resolved (minifySvg (if env.scaledWidth * env.scaledHeight < 150000
          then svgTraceWrap env.scaledWidth env.scaledHeight
            (traceToSvgPath env.bitmap env.scaledWidth env.scaledHeight)
          else svgEmbedWrap env.scaledWidth env.scaledHeight env.dataUrl))
        (mediaType .svg) := by
    unfold convertImage
    rw [if_neg (fun hand => hf hand.1),
      if_neg (by rw [hctx]; exact (by decide : ¬(true = false))), if_pos rfl]
  constructor
  · intro hlt
    rw [hbase, if_pos hlt]
  · intro hge
    have hnlt : ¬(env.scaledWidth * env.scaledHeight < 150000) := by omega
    refine ⟨by rw [hbase, if_neg hnlt], fun hu => ?_⟩
    rw [embed_minify_id _ _ _ hu]
    exact ⟨embed_image_count _ _ _ (fun c hc => (hu c hc).1),
      embed_rect_count _ _ _ (fun c hc => (hu c hc).1)⟩

/-- The environment of scenario C: a 1000×1000 opaque PNG requested as
vector markup at scale 1, with a well-formed WebP data URL. -/
def envC2 : ConvertEnv :=
  ⟨"image/png", "", true, 1000, 1000, [], "data:image/webp;base64,UklGRg==", none⟩

/-- Witness for C2 at scenario C: 1000×1000 pixels exceed the threshold, so
the embedding strategy is selected. -/
theorem c2_strategy_selection_witness :
    (envC2.fileType ≠ mediaType .svg ∧ envC2.ctxAvailable = true) ∧
      ((envC2.scaledWidth * envC2.scaledHeight < 150000 →
          convertImage envC2 .svg
            = .resolved (minifySvg (svgTraceWrap envC2.scaledWidth envC2.scaledHeight
                (traceToSvgPath envC2.bitmap envC2.scaledWidth envC2.scaledHeight)))
                (mediaType .svg))
        ∧ (150000 ≤ envC2.scaledWidth * envC2.scaledHeight →
            convertImage envC2 .svg
                = .resolved (minifySvg (svgEmbedWrap envC2.scaledWidth envC2.scaledHeight
                    envC2.dataUrl)) (mediaType .svg)
              ∧ ((∀ c ∈ envC2.dataUrl.data,
                    c ≠ '<' ∧ c ≠ '>' ∧ c ≠ '!' ∧ isJsWs c = false) →
                  imageCount (minifySvg (svgEmbedWrap envC2.scaledWidth envC2.scaledHeight
                      envC2.dataUrl)) = 1
                    ∧ rectCount (minifySvg (svgEmbedWrap envC2.scaledWidth
                        envC2.scaledHeight envC2.dataUrl)) = 0))) :=
  ⟨⟨by decide, rfl⟩, c2_strategy_selection envC2 (by decide) rfl⟩

/-! ### The second observed source variant -/

/-- Embedding of `traceToSvgPath` from the second observed variant (the
200000-threshold source file); its sampler is token-identical to the other
variant's. -/
def traceToSvgPath000 (data : List Nat) (width height : Nat) : String :=
  let step := 2
  (strideList height step).foldl
    (fun paths y =>
      (strideList width step).foldl
        (fun paths x =>
          let i := (y * width + x) * 4
          let r := data.getD i 0
          let g := data.getD (i + 1) 0
          let b := data.getD (i + 2) 0
          let a := data.getD (i + 3) 0
          if a > 128 then paths ++ rectStr x y step r g b else paths)
        paths)
    ""

/-- Embedding of `minifySvg` from the second observed variant, again
token-identical to the other variant's minifier. -/
def minifySvg000 (s : String) : String :=
  String.mk (trimChars (collapseRun none (stripRun .normal s.data)))

/-- The strategy selector of the second variant:
`useTracing = width * height < 200000`. -/
def useTracing000 (w h : Nat) : Bool := w * h < 200000

/-- The strategy selector of the threshold-150000 variant, as inlined in its
`convertImage`: `useTracing = width * height < 150000`. -/
def useTracing001 (w h : Nat) : Bool := w * h < 150000

/-- C8: the two observed source variants have extensionally equal pixel
samplers and minifiers, and their strategy selectors agree everywhere except
exactly on the band `150000 ≤ w*h < 200000` — i.e. they differ only in the
area-threshold constant (200000 versus 150000). -/
theorem c8_variant_equivalence :
    (∀ (data : List Nat) (w h : Nat), traceToSvgPath000 data w h = traceToSvgPath data w h)
      ∧ (∀ s : String, minifySvg000 s = minifySvg s)
      ∧ (∀ w h : Nat, useTracing000 w h = useTracing001 w h
          ↔ ¬(150000 ≤ w * h ∧ w * h < 200000)) := by
  refine ⟨fun data w h => rfl, fun s => rfl, fun w h => ?_⟩
  unfold useTracing000 useTracing001
  constructor
  · intro heq hband
    obtain ⟨h1, h2⟩ := hband
    rw [decide_eq_true h2, decide_eq_false (by omega : ¬(w * h < 150000))] at heq
    exact Bool.noConfusion heq
  · intro hnb
    by_cases h2 : w * h < 150000
    · rw [decide_eq_true h2, decide_eq_true (by omega : w * h < 200000)]
    · have h200 : ¬(w * h < 200000) := fun hlt => hnb ⟨by omega, hlt⟩
      rw [decide_eq_false h2, decide_eq_false h200]
